import Mathlib

/-!
Verification development for the cookpdf OCR pipeline (`src/lib/ocr.ts`).

The TypeScript source is shallowly embedded below.  External collaborators
(pdfjs rendering, the tesseract recognition engine, pdf-lib serialization,
the filesystem and the network) are not part of the repository; each is
abstracted as an explicit parameter (`rendered`, `recognize`, `fsFont`, ...)
so that every control-flow decision made by the repository's own code is
modelled exactly.  JavaScript `number` arithmetic is modelled over `ℚ`
(the decimal literals of the source, e.g. `0.299`, are exact in `ℚ`), and
`Uint8Array` pixel buffers over `List ℕ`.

Concurrency: node runs a single-threaded cooperative scheduler, so a stretch
of code with no `await` executes atomically.  The worker-pool and font-cache
models below split each source function at its `await` points into atomic
steps, and quantify over interleavings of those steps.
-/

deriving instance DecidableEq for Except

namespace Cookpdf

/-! ## Configuration (module-level IIFE constants, `src/lib/ocr.ts` 258-284, 558-564)

Each environment knob is modelled as a function of `Option ℚ`: `none` stands
for an unset variable or one whose `Number(...)` conversion is not finite
(the source treats both identically via `!Number.isFinite(n)`). -/

/-- `OCR_BATCH_SIZE` (lines 559-564): unset, non-finite or non-positive
values fall back to the default 3; otherwise `Math.min(Math.max(n, 1), 5)`. -/
def OCR_BATCH_SIZE_of : Option ℚ → ℚ
  | none => 3
  | some n => if n ≤ 0 then 3 else min (max n 1) 5

/-- `BINARIZE_THRESHOLD` (lines 279-284): unset or non-finite gives 180;
otherwise `Math.min(Math.max(n, 0), 255)`. -/
def BINARIZE_THRESHOLD_of : Option ℚ → ℚ
  | none => 180
  | some n => min (max n 0) 255

/-- `AMHARIC_BINARIZE_ENABLED` (line 277): fixed `true`. -/
def AMHARIC_BINARIZE_ENABLED : Bool := true

/-- `lang.includes("amh")` as used on lines 349, 411, 493. -/
def langHasAmh (lang : String) : Bool := decide ("amh".data <:+: lang.data)

/-! ## Page images and binarization (`rasterizePdfPages`, lines 366-378)

A `PageImage` is the RGBA byte buffer of one rendered canvas
(`context.getImageData(...).data`), together with its dimensions. -/

structure PageImage where
  width : Nat
  height : Nat
  /-- Flat RGBA bytes; a well-formed canvas buffer has length
  `4 * width * height`. -/
  data : List Nat
deriving DecidableEq

/-- The per-pixel luminance of line 373: `0.299 * r + 0.587 * g + 0.114 * b`,
written over a common denominator of 1000 (exact: the decimal literals of the
source denote 299/1000, 587/1000 and 114/1000 in `ℚ`; `luminance_eq` below
proves the two spellings equal). -/
def luminance (r g b : Nat) : ℚ := mkRat (299 * r + 587 * g + 114 * b) 1000

/-- The pixel loop of lines 369-376: steps through the flat buffer four bytes
at a time, overwrites the three colour bytes with 255 or 0 according to the
luminance threshold, and leaves the fourth (alpha) byte alone.  A trailing
fragment shorter than four bytes cannot occur in a canvas buffer and is left
unchanged. -/
def binarizeData (T : ℚ) : List Nat → List Nat
  | r :: g :: b :: a :: rest =>
      let gray := luminance r g b
      let v : Nat := if gray ≥ T then 255 else 0
      v :: v :: v :: a :: binarizeData T rest
  | other => other

/-- Binarization of one page image (`getImageData` / loop / `putImageData`,
lines 367-377): the pixel data is transformed in place, the canvas keeps its
dimensions. -/
def binarizeImage (T : ℚ) (img : PageImage) : PageImage :=
  { img with data := binarizeData T img.data }

/-- `rasterizePdfPages` (lines 325-392).  The pdfjs document load, the page
cap and the per-page canvas rendering are external; `rendered` stands for
their combined outcome: either the ordered list of rendered page images or
the first error thrown anywhere inside the `try` block.  The repository's own
decisions are kept exactly: an error yields `[]` (the `catch` of lines
385-391), and binarization runs on every page iff
`isAmharic ? AMHARIC_BINARIZE_ENABLED : binarizeEnabled` (lines 349, 365). -/
def rasterizePdfPages {ε : Type} (rendered : Except ε (List PageImage))
    (lang : Option String) (T : ℚ) (binarizeEnabled : Bool) : List PageImage :=
  match rendered with
  | Except.error _ => []
  | Except.ok imgs =>
      let isAmharic := match lang with
        | some l => langHasAmh l
        | none => false
      let shouldBinarize := if isAmharic then AMHARIC_BINARIZE_ENABLED else binarizeEnabled
      if shouldBinarize then imgs.map (binarizeImage T) else imgs

/-! ## JavaScript string primitives used by `buildSearchablePdf` -/

/-- The character class of line 501:
`[\u0000-\u0008\u000B\u000C\u000E-\u001F\u007F]`. -/
def isStrippedControl (c : Char) : Bool :=
  decide (c.toNat ≤ 0x8 ∨ c.toNat = 0xB ∨ c.toNat = 0xC ∨
    (0xE ≤ c.toNat ∧ c.toNat ≤ 0x1F) ∨ c.toNat = 0x7F)

/-- JavaScript's `\s` class (also the set trimmed by `String.prototype.trim`):
tab, LF, VT, FF, CR, space, NBSP, and the Unicode space separators plus
line/paragraph separators and BOM. -/
def isJsSpace (c : Char) : Bool :=
  decide (c.toNat = 0x9 ∨ c.toNat = 0xA ∨ c.toNat = 0xB ∨ c.toNat = 0xC ∨
    c.toNat = 0xD ∨ c.toNat = 0x20 ∨ c.toNat = 0xA0 ∨ c.toNat = 0x1680 ∨
    (0x2000 ≤ c.toNat ∧ c.toNat ≤ 0x200A) ∨ c.toNat = 0x2028 ∨
    c.toNat = 0x2029 ∨ c.toNat = 0x202F ∨ c.toNat = 0x205F ∨
    c.toNat = 0x3000 ∨ c.toNat = 0xFEFF)

/-- `String.prototype.trim` on a character list. -/
def jsTrimList (cs : List Char) : List Char :=
  ((cs.dropWhile isJsSpace).reverse.dropWhile isJsSpace).reverse

/-- `String.prototype.trim`. -/
def jsTrim (s : String) : String := String.mk (jsTrimList s.data)

/-- Language-tag resolution of the orchestrator (line 572):
`params.lang && params.lang.trim() ? params.lang.trim() : "eng"`. -/
def resolveLang : Option String → String
  | none => "eng"
  | some s => if jsTrim s = "" then "eng" else jsTrim s

/-- Worker for `collapseWs`: `inRun` records whether the previous character
belonged to a whitespace run (whose single replacement space has already been
emitted). -/
def collapseWsAux : Bool → List Char → List Char
  | _, [] => []
  | inRun, c :: rest =>
      if isJsSpace c then
        if inRun then collapseWsAux true rest
        else ' ' :: collapseWsAux true rest
      else c :: collapseWsAux false rest

/-- `.replace(/\s+/g, " ")`: every maximal run of JavaScript whitespace
becomes a single space. -/
def collapseWs (cs : List Char) : List Char := collapseWsAux false cs

/-- Worker for `splitParas`: `acc` holds the current piece reversed, and
`pending` counts the consecutive `'\n'` just read, which become a paragraph
separator exactly when the run reaches length two or more (the `/\n{2,}/`
matches of line 521 are these maximal runs). -/
def splitParasAux (acc : List Char) (pending : Nat) : List Char → List (List Char)
  | [] =>
      if pending ≥ 2 then [acc.reverse, []]
      else [acc.reverse ++ List.replicate pending '\n']
  | c :: rest =>
      if c = '\n' then splitParasAux acc (pending + 1) rest
      else if pending ≥ 2 then acc.reverse :: splitParasAux [c] 0 rest
      else splitParasAux (c :: (List.replicate pending '\n' ++ acc)) 0 rest

/-- `cleaned.split(/\n{2,}/)` (line 521). -/
def splitParas (cs : List Char) : List (List Char) := splitParasAux [] 0 cs

/-- U+FFFD, the Unicode replacement character. -/
def replacementChar : Char := Char.ofNat 0xFFFD

/-- The zero-width and bidi characters removed for Amharic on lines 513-515:
`[​-‍﻿]` and `[‪-‮]`. -/
def isAmhStripped (c : Char) : Bool :=
  decide ((0x200B ≤ c.toNat ∧ c.toNat ≤ 0x200D) ∨ c.toNat = 0xFEFF ∨
    (0x202A ≤ c.toNat ∧ c.toNat ≤ 0x202E))

/-- The cleaning chain of `buildSearchablePdf` (lines 500-516) on a character
list: control characters become spaces (line 501); U+FFFD is replaced by the
empty string when the language profile is Amharic and by a space otherwise
(line 503); for Amharic, zero-width and bidi-control characters are then
removed (lines 513-515). -/
def cleanChars (isAmharic : Bool) (cs : List Char) : List Char :=
  let step1 := cs.map (fun c => if isStrippedControl c then ' ' else c)
  let step2 := step1.flatMap
    (fun c => if c = replacementChar then (if isAmharic then [] else [' ']) else [c])
  if isAmharic then step2.filter (fun c => !(isAmhStripped c)) else step2

/-- The `cleaned` string of lines 500-516. -/
def cleanedText (isAmharic : Bool) (raw : String) : String :=
  String.mk (cleanChars isAmharic raw.data)

/-- The `paragraphs` value of lines 520-523: split on blank lines, trim and
collapse whitespace inside each paragraph, drop empty paragraphs. -/
def normalizedParagraphs (cleaned : List Char) : List String :=
  ((splitParas cleaned).map (fun p => String.mk (collapseWs (jsTrimList p)))).filter
    (fun s => !s.isEmpty)

/-- `normalizedText` (line 524): paragraphs joined with blank lines. -/
def normalizedOf (cleaned : String) : String :=
  String.intercalate "\n\n" (normalizedParagraphs cleaned.data)

/-- The text drawn on one output page (line 531):
`normalizedText || cleaned || "(empty)"`. -/
def pageRenderText (isAmharic : Bool) (raw : String) : String :=
  let cleaned := cleanedText isAmharic raw
  let normalized := normalizedOf cleaned
  if !normalized.isEmpty then normalized
  else if !cleaned.isEmpty then cleaned
  else "(empty)"

/-! ## Document assembly (`buildSearchablePdf`, lines 481-556)

The pdf-lib document object is external; the model records the observable
layout decisions the repository makes: the text drawn on each page, the font
size and line height (lines 527-528) and the subsetting flag (line 494). -/

structure BuiltPdf where
  pages : List String
  fontSize : Nat
  lineHeight : Nat
  subset : Bool
deriving DecidableEq

/-- `buildSearchablePdf` (lines 481-556).  One page is added per entry of
`pageTexts.length ? pageTexts : ["(empty)"]` (line 498); each page carries
its cleaned and normalized text; sizing and subsetting follow
`lang.includes("amh")`. -/
def buildSearchablePdf (pageTexts : List String) (lang : String) : BuiltPdf :=
  let isAmharic := langHasAmh lang
  let texts := if pageTexts.isEmpty then ["(empty)"] else pageTexts
  { pages := texts.map (pageRenderText isAmharic)
    fontSize := if isAmharic then 16 else 14
    lineHeight := if isAmharic then 22 else 18
    subset := !isAmharic }

/-! ## Batch scheduler (`convertToSearchablePdf`, lines 588-599)

Recognition (`ocrImage`, lines 430-434) is external: `recognize` stands for
one awaited `ocrImage` call, returning the recognized text or throwing. -/

/-- One scheduled recognition with the per-page catch of lines 593-596:
`ocrImage(pageImage, lang).catch(err => "[OCR failed for this page]")`. -/
def ocrImageSafe {α ε : Type} (recognize : α → Except ε String) (img : α) : String :=
  match recognize img with
  | Except.ok t => t
  | Except.error _ => "[OCR failed for this page]"

/-- Worker for `runBatches`: one step per loop iteration of lines 589-599
(slice off `B` pages, run them through `Promise.all`, whose resolution list
is in slot order, append, repeat).  `fuel` only bounds the iteration count to
make the recursion structural: since the source loop steps by
`OCR_BATCH_SIZE ≥ 1`, `pages.length` iterations always suffice. -/
def runBatchesAux {α ε : Type} (recognize : α → Except ε String) (B : Nat) :
    Nat → List α → List String
  | 0, _ => []
  | _, [] => []
  | fuel + 1, p :: ps =>
      ((p :: ps).take B).map (ocrImageSafe recognize)
      ++ runBatchesAux recognize B fuel ((p :: ps).drop B)

/-- The batch loop of lines 588-599. -/
def runBatches {α ε : Type} (recognize : α → Except ε String) (B : Nat)
    (pages : List α) : List String :=
  runBatchesAux recognize B pages.length pages

/-- Semantic model of `Promise.all` over one batch under an explicit
completion schedule: the batch has `n` slots, `order` lists the slot indices
in the order their recognition promises settle, and each settlement stores
its result at its own slot (results are written positionally, never appended
by completion).  `Promise.all` then resolves with the slots in index order. -/
def completeAll (results : Nat → String) (n : Nat) (order : List Nat) :
    List (Option String) :=
  order.foldl (fun slots j => slots.set j (some (results j))) (List.replicate n none)

/-- The batch loop of lines 588-599 again, with each batch's `Promise.all`
replaced by `completeAll` under that batch's completion schedule.  `sched`
supplies one schedule per batch. -/
def runBatchesScheduled {α ε : Type} [Inhabited α] (recognize : α → Except ε String)
    (B : Nat) : List (List Nat) → List α → List (Option String)
  | _, [] => []
  | [], _ :: _ => []
  | order :: rest, p :: ps =>
      completeAll (fun j => ocrImageSafe recognize (((p :: ps).take B).getD j default))
        ((p :: ps).take B).length order
      ++ runBatchesScheduled recognize B rest ((p :: ps).drop B)

/-- A schedule family is valid when each batch's schedule settles each of the
batch's slots exactly once, in any order: it is a permutation of the slot
indices of that batch. -/
def ValidSched {α : Type} (B : Nat) : List (List Nat) → List α → Prop
  | _, [] => True
  | [], _ :: _ => False
  | order :: rest, p :: ps =>
      order.Perm (List.range (min B (p :: ps).length)) ∧
      ValidSched B rest ((p :: ps).drop B)

/-! ## Pipeline orchestrator (`convertToSearchablePdf`, lines 566-612) -/

structure ConvertParams (β : Type) where
  bytes : β
  filename : String
  mimeType : Option String
  lang : Option String

/-- `filename.toLowerCase().endsWith(".pdf")` (line 575). -/
def hasPdfExt (name : String) : Bool :=
  ".pdf".data.isSuffixOf (name.data.map Char.toLower)

/-- The `isPdf` test of lines 573-575. -/
def isPdfInput {β : Type} (p : ConvertParams β) : Bool :=
  (p.mimeType == some "application/pdf") || hasPdfExt p.filename

structure OcrResultM where
  text : String
  pdf : BuiltPdf
deriving DecidableEq

/-- The `combinedText` of lines 602-604:
per-page entries `` `Page ${idx + 1}\n${t}`.trim() `` joined with blank
lines. -/
def combinedTextOf (texts : List String) : String :=
  String.intercalate "\n\n"
    (texts.enum.map (fun it => jsTrim ("Page " ++ toString (it.1 + 1) ++ "\n" ++ it.2)))

/-- `convertToSearchablePdf` (lines 566-612).  `rasterize` stands for the
awaited `rasterizePdfPages(params.bytes, undefined, lang)` call (for the PDF
path it is instantiated with `rasterizePdfPages` above), `recognize` for one
awaited `ocrImage` call, and `B` for `OCR_BATCH_SIZE`.  On the PDF path an
empty rasterization falls back to direct recognition of the raw bytes (lines
579-583); a non-empty one runs the batch scheduler; the non-PDF path
recognizes the raw bytes directly (lines 608-611).  The `ocrImage` calls
outside the batch loop have no catch, so their failure propagates. -/
def convertToSearchablePdf {β ε : Type} (rasterize : β → String → List β)
    (recognize : β → Except ε String) (B : Nat) (p : ConvertParams β) :
    Except ε OcrResultM :=
  let lang := resolveLang p.lang
  if isPdfInput p then
    let pageImages := rasterize p.bytes lang
    if pageImages.length = 0 then
      match recognize p.bytes with
      | Except.error e => Except.error e
      | Except.ok text => Except.ok { text := text, pdf := buildSearchablePdf [text] lang }
    else
      let texts := runBatches recognize B pageImages
      Except.ok { text := combinedTextOf texts, pdf := buildSearchablePdf texts lang }
  else
    match recognize p.bytes with
    | Except.error e => Except.error e
    | Except.ok text => Except.ok { text := text, pdf := buildSearchablePdf [text] lang }

/-! ## Recognition engine pool (`getWorker`, lines 394-428)

`getWorker(lang)` checks `workerCache[lang]` and, when absent, synchronously
stores the promise of a fresh construction before any suspension point: the
check and the store are one atomic step of the cooperative scheduler.  The
model gives every construction a fresh identifier (the promise identity);
promise settlement (success or construction failure) is a function of that
identifier alone, so every caller holding the same identifier observes the
same settlement. -/

structure PoolState where
  /-- `workerCache`: promise identifier per language tag. -/
  cache : String → Option Nat
  /-- Next fresh promise identifier. -/
  nextId : Nat
  /-- Log of `createWorker` constructions, in program order, by tag. -/
  constructions : List String

def initPool : PoolState :=
  { cache := fun _ => none, nextId := 0, constructions := [] }

/-- One atomic `getWorker(lang)` call (lines 394-428): return the cached
promise, or mint, store and return a fresh one. -/
def getWorkerStep (lang : String) (s : PoolState) : Nat × PoolState :=
  match s.cache lang with
  | some pid => (pid, s)
  | none =>
      (s.nextId,
        { cache := fun l => if l = lang then some s.nextId else s.cache l
          nextId := s.nextId + 1
          constructions := s.constructions ++ [lang] })

/-- An arbitrary interleaving of concurrent `getWorker` calls: since each call
is atomic, any interleaving is a sequence of calls.  Returns the (tag,
promise identifier) observed by each caller, in order, with the final state. -/
def runCalls : List String → PoolState → List (String × Nat) × PoolState
  | [], s => ([], s)
  | c :: rest, s =>
      ((c, (getWorkerStep c s).1) :: (runCalls rest (getWorkerStep c s).2).1,
       (runCalls rest (getWorkerStep c s).2).2)

/-- Bookkeeping invariant of the pool model: every cached promise identifier
was minted below `nextId`, and no two tags share an identifier. -/
def PoolWF (s : PoolState) : Prop :=
  (∀ L n, s.cache L = some n → n < s.nextId) ∧
  (∀ L L' n, s.cache L = some n → s.cache L' = some n → L = L')

/-! ## Font asset cache (`loadFontData`, lines 436-474)

`loadFontData` caches the resolved bytes, not the promise.  Its body has
exactly one suspension point on the cache-miss network path: `await
fetch(url)` (line 464).  The synchronous prefix (cache check, both
`fs.existsSync` probes and, on a local hit, the `readFileSync` and the cache
store) is one atomic step (`fontBegin`); the continuation after the fetch
resolves (cache store, return) is another (`fontFinish`).  `fsFont` is the
content of the local font file, `none` when neither probe finds a file. -/

structure FontState where
  /-- `fontCache["noto-ethiopic"]` (bytes abstracted to an identifier). -/
  cache : Option Nat
  /-- Number of `readFileSync` filesystem reads performed. -/
  reads : Nat
  /-- Number of network fetches started. -/
  fetches : Nat
deriving DecidableEq

/-- The synchronous prefix of one `loadFontData()` call: a cache hit or a
local-file read completes the call (`some result`); a miss on both starts a
fetch and suspends (`none`). -/
def fontBegin (fsFont : Option Nat) (s : FontState) : Option Nat × FontState :=
  match s.cache with
  | some v => (some v, s)
  | none =>
      match fsFont with
      | some v => (some v, { cache := some v, reads := s.reads + 1, fetches := s.fetches })
      | none => (none, { cache := s.cache, reads := s.reads, fetches := s.fetches + 1 })

/-- The continuation of a suspended `loadFontData()` call once its fetch
resolves with `fetched`: store into the cache and return the cached value
(lines 468-473; no suspension between the store and the return). -/
def fontFinish (fetched : Nat) (s : FontState) : Nat × FontState :=
  (fetched, { cache := some fetched, reads := s.reads, fetches := s.fetches })

/-! ## Helper lemmas -/

/-- The `mkRat` spelling of `luminance` equals the decimal formula of
line 373 literally. -/
theorem luminance_eq (r g b : Nat) :
    luminance r g b = 0.299 * (r : ℚ) + 0.587 * (g : ℚ) + 0.114 * (b : ℚ) := by
  unfold luminance
  rw [Rat.mkRat_eq_div]
  push_cast
  ring

theorem binarizeData_length (T : ℚ) :
    ∀ data : List Nat, (binarizeData T data).length = data.length
  | [] => rfl
  | [_] => rfl
  | [_, _] => rfl
  | [_, _, _] => rfl
  | _ :: _ :: _ :: _ :: rest => by
      simp only [binarizeData, List.length_cons, binarizeData_length T rest]

theorem binarizeData_alpha (T : ℚ) :
    ∀ (data : List Nat) (p : Nat), (binarizeData T data)[4 * p + 3]? = data[4 * p + 3]?
  | [], _ => rfl
  | [_], _ => rfl
  | [_, _], _ => rfl
  | [_, _, _], _ => rfl
  | r :: g :: b :: a :: rest, 0 => by simp [binarizeData]
  | r :: g :: b :: a :: rest, p + 1 => by
      have hidx : 4 * (p + 1) + 3 = 4 * p + 3 + 1 + 1 + 1 + 1 := by ring
      simp only [binarizeData, hidx, List.getElem?_cons_succ]
      exact binarizeData_alpha T rest p

theorem binarizeData_pixel (T : ℚ) :
    ∀ (data : List Nat) (p r g b : Nat), 4 * p + 3 < data.length →
      data[4 * p]? = some r → data[4 * p + 1]? = some g → data[4 * p + 2]? = some b →
      (binarizeData T data)[4 * p]? = some (if luminance r g b ≥ T then 255 else 0) ∧
      (binarizeData T data)[4 * p + 1]? = some (if luminance r g b ≥ T then 255 else 0) ∧
      (binarizeData T data)[4 * p + 2]? = some (if luminance r g b ≥ T then 255 else 0)
  | [], p, r, g, b, hlen, _, _, _ => by simp at hlen
  | [_], p, r, g, b, hlen, _, _, _ => by
      simp only [List.length_cons, List.length_nil] at hlen; omega
  | [_, _], p, r, g, b, hlen, _, _, _ => by
      simp only [List.length_cons, List.length_nil] at hlen; omega
  | [_, _, _], p, r, g, b, hlen, _, _, _ => by
      simp only [List.length_cons, List.length_nil] at hlen; omega
  | x :: y :: z :: a :: rest, 0, r, g, b, _, h0, h1, h2 => by
      simp only [Nat.mul_zero, Nat.zero_add, List.getElem?_cons_zero,
        List.getElem?_cons_succ, Option.some.injEq] at h0 h1 h2
      subst h0; subst h1; subst h2
      refine ⟨?_, ?_, ?_⟩ <;> simp [binarizeData]
  | x :: y :: z :: a :: rest, p + 1, r, g, b, hlen, h0, h1, h2 => by
      have hi0 : 4 * (p + 1) = 4 * p + 1 + 1 + 1 + 1 := by ring
      have hi1 : 4 * (p + 1) + 1 = 4 * p + 1 + 1 + 1 + 1 + 1 := by ring
      have hi2 : 4 * (p + 1) + 2 = 4 * p + 2 + 1 + 1 + 1 + 1 := by ring
      have hl : 4 * p + 3 < rest.length := by
        simp only [List.length_cons] at hlen; omega
      have h0' : rest[4 * p]? = some r := by
        rw [hi0, List.getElem?_cons_succ, List.getElem?_cons_succ,
          List.getElem?_cons_succ, List.getElem?_cons_succ] at h0
        exact h0
      have h1' : rest[4 * p + 1]? = some g := by
        rw [hi1, List.getElem?_cons_succ, List.getElem?_cons_succ,
          List.getElem?_cons_succ, List.getElem?_cons_succ] at h1
        exact h1
      have h2' : rest[4 * p + 2]? = some b := by
        rw [hi2, List.getElem?_cons_succ, List.getElem?_cons_succ,
          List.getElem?_cons_succ, List.getElem?_cons_succ] at h2
        exact h2
      have ih := binarizeData_pixel T rest p r g b hl h0' h1' h2'
      refine ⟨?_, ?_, ?_⟩
      · simp only [binarizeData, hi0, List.getElem?_cons_succ]
        exact ih.1
      · simp only [binarizeData, hi1, List.getElem?_cons_succ]
        exact ih.2.1
      · simp only [binarizeData, hi2, List.getElem?_cons_succ]
        exact ih.2.2

theorem runBatchesAux_eq_map {α ε : Type} (recognize : α → Except ε String) (B : Nat)
    (hB : 0 < B) :
    ∀ (fuel : Nat) (pages : List α), pages.length ≤ fuel →
      runBatchesAux recognize B fuel pages = pages.map (ocrImageSafe recognize)
  | 0, [], _ => rfl
  | 0, p :: ps, h => by simp at h
  | fuel + 1, [], _ => rfl
  | fuel + 1, p :: ps, h => by
      rw [runBatchesAux]
      have hlen : ((p :: ps).drop B).length ≤ fuel := by
        simp only [List.length_drop, List.length_cons] at *
        omega
      rw [runBatchesAux_eq_map recognize B hB fuel ((p :: ps).drop B) hlen]
      rw [← List.map_append, List.take_append_drop]

theorem runBatches_eq_map {α ε : Type} (recognize : α → Except ε String) (B : Nat)
    (pages : List α) (hB : 0 < B) :
    runBatches recognize B pages = pages.map (ocrImageSafe recognize) :=
  runBatchesAux_eq_map recognize B hB pages.length pages le_rfl

theorem foldl_set_getElem? (results : Nat → String) :
    ∀ (order : List Nat) (init : List (Option String)) (j : Nat),
      (order.foldl (fun slots i => slots.set i (some (results i))) init)[j]? =
        if j ∈ order ∧ j < init.length then some (some (results j)) else init[j]?
  | [], init, j => by simp
  | i :: order, init, j => by
      rw [List.foldl_cons, foldl_set_getElem? results order (init.set i (some (results i))) j]
      rw [List.length_set, List.getElem?_set]
      by_cases hj : j < init.length
      · by_cases hij : i = j
        · subst hij
          by_cases hmem : i ∈ order
          · simp [hmem, hj]
          · simp [hmem, hj]
        · have hji : ¬(j = i) := fun h => hij h.symm
          by_cases hmem : j ∈ order
          · simp [hmem, hj, hij, List.mem_cons]
          · simp [hmem, hj, hij, hji, List.mem_cons]
      · have hnone : init[j]? = none := List.getElem?_eq_none (by omega)
        by_cases hij : i = j
        · subst hij
          simp [hj, hnone]
        · simp [hj, hij, hnone]

theorem completeAll_getElem? (results : Nat → String) (n : Nat) (order : List Nat)
    (j : Nat) :
    (completeAll results n order)[j]? =
      if j ∈ order ∧ j < n then some (some (results j))
      else if j < n then some none else none := by
  unfold completeAll
  rw [foldl_set_getElem? results order (List.replicate n none) j, List.length_replicate]
  by_cases h : j ∈ order ∧ j < n
  · simp [h]
  · simp only [h, if_false]
    rw [List.getElem?_replicate]

theorem completeAll_perm_range (results : Nat → String) (n : Nat) (order : List Nat)
    (h : order.Perm (List.range n)) :
    completeAll results n order = (List.range n).map (fun j => some (results j)) := by
  apply List.ext_getElem?
  intro j
  rw [completeAll_getElem?, List.getElem?_map]
  have hmem : j ∈ order ↔ j < n := by rw [h.mem_iff, List.mem_range]
  by_cases hj : j < n
  · rw [if_pos ⟨hmem.mpr hj, hj⟩, List.getElem?_range hj]
    rfl
  · rw [if_neg (fun hc => hj hc.2), if_neg hj]
    rw [List.getElem?_eq_none (by simpa using hj)]
    rfl

theorem range_map_getD {α β : Type} [Inhabited α] (l : List α) (f : α → β) :
    (List.range l.length).map (fun j => f (l.getD j default)) = l.map f := by
  apply List.ext_getElem?
  intro j
  rw [List.getElem?_map, List.getElem?_map]
  by_cases hj : j < l.length
  · rw [List.getElem?_range hj, List.getElem?_eq_getElem hj]
    simp only [Option.map_some', Option.some.injEq]
    congr 1
    exact List.getD_eq_getElem l default hj
  · rw [List.getElem?_eq_none (l := List.range l.length) (by simpa using hj),
      List.getElem?_eq_none (by omega)]
    rfl

theorem runBatchesScheduled_eq {α ε : Type} [Inhabited α]
    (recognize : α → Except ε String) (B : Nat) (hB : 0 < B) :
    ∀ (sched : List (List Nat)) (pages : List α), ValidSched B sched pages →
      runBatchesScheduled recognize B sched pages =
        pages.map (fun p => some (ocrImageSafe recognize p))
  | sched, [], _ => by cases sched <;> rfl
  | [], q :: qs, hv => absurd hv (by simp [ValidSched])
  | order :: rest, q :: qs, hv => by
      obtain ⟨hperm, hrec⟩ := hv
      rw [runBatchesScheduled]
      rw [completeAll_perm_range _ _ _ (by rw [List.length_take, List.length_cons]; exact hperm)]
      rw [range_map_getD ((q :: qs).take B) (fun p => some (ocrImageSafe recognize p))]
      rw [runBatchesScheduled_eq recognize B hB rest ((q :: qs).drop B) hrec]
      rw [← List.map_append, List.take_append_drop]

theorem getWorkerStep_of_cached (c : String) (s : PoolState) (pid : Nat)
    (h : s.cache c = some pid) : getWorkerStep c s = (pid, s) := by
  unfold getWorkerStep
  rw [h]

theorem getWorkerStep_of_uncached (c : String) (s : PoolState)
    (h : s.cache c = none) :
    getWorkerStep c s =
      (s.nextId,
        { cache := fun l => if l = c then some s.nextId else s.cache l
          nextId := s.nextId + 1
          constructions := s.constructions ++ [c] }) := by
  unfold getWorkerStep
  rw [h]

theorem getWorkerStep_cache_stable (c L : String) (s : PoolState) (n : Nat)
    (h : s.cache L = some n) : ((getWorkerStep c s).2).cache L = some n := by
  rcases hc : s.cache c with _ | pid
  · rw [getWorkerStep_of_uncached c s hc]
    by_cases hLc : L = c
    · rw [hLc, hc] at h
      exact absurd h (by simp)
    · simpa [hLc] using h
  · rw [getWorkerStep_of_cached c s pid hc]
    exact h

theorem runCalls_cache_stable :
    ∀ (cs : List String) (s : PoolState) (L : String) (n : Nat),
      s.cache L = some n → ((runCalls cs s).2).cache L = some n
  | [], _, _, _, h => h
  | c :: rest, s, L, n, h =>
      runCalls_cache_stable rest (getWorkerStep c s).2 L n
        (getWorkerStep_cache_stable c L s n h)

theorem runCalls_id_of_cached :
    ∀ (cs : List String) (s : PoolState) (L : String) (n : Nat),
      s.cache L = some n →
      ∀ (i m : Nat), ((runCalls cs s).1)[i]? = some (L, m) → m = n
  | [], s, L, n, _, i, m, hi => by simp [runCalls] at hi
  | c :: rest, s, L, n, h, i, m, hi => by
      rw [runCalls] at hi
      match i with
      | 0 =>
          rw [List.getElem?_cons_zero, Option.some.injEq, Prod.mk.injEq] at hi
          obtain ⟨hcL, hid⟩ := hi
          subst hcL
          rw [getWorkerStep_of_cached c s n h] at hid
          exact hid.symm
      | i + 1 =>
          rw [List.getElem?_cons_succ] at hi
          exact runCalls_id_of_cached rest (getWorkerStep c s).2 L n
            (getWorkerStep_cache_stable c L s n h) i m hi

theorem runCalls_agree :
    ∀ (cs : List String) (s : PoolState) (L : String), s.cache L = none →
      ∀ (i j n m : Nat), ((runCalls cs s).1)[i]? = some (L, n) →
        ((runCalls cs s).1)[j]? = some (L, m) → n = m
  | [], s, L, _, i, j, n, m, hi, _ => by simp [runCalls] at hi
  | c :: rest, s, L, h, i, j, n, m, hi, hj => by
      rw [runCalls] at hi hj
      by_cases hcL : c = L
      · subst hcL
        have hstep : ((getWorkerStep c s).2).cache c = some s.nextId := by
          rw [getWorkerStep_of_uncached c s h]
          simp
        have hid : (getWorkerStep c s).1 = s.nextId := by
          rw [getWorkerStep_of_uncached c s h]
        have hval : ∀ (i' n' : Nat),
            ((c, (getWorkerStep c s).1) ::
              (runCalls rest (getWorkerStep c s).2).1)[i']? = some (c, n') →
            n' = s.nextId := by
          intro i' n' hi'
          match i' with
          | 0 =>
              rw [List.getElem?_cons_zero, Option.some.injEq, Prod.mk.injEq] at hi'
              rw [← hi'.2, hid]
          | i' + 1 =>
              rw [List.getElem?_cons_succ] at hi'
              exact runCalls_id_of_cached rest (getWorkerStep c s).2 c s.nextId
                hstep i' n' hi'
        rw [hval i n hi, hval j m hj]
      · match i, j with
        | 0, _ =>
            rw [List.getElem?_cons_zero, Option.some.injEq, Prod.mk.injEq] at hi
            exact absurd hi.1 hcL
        | _ + 1, 0 =>
            rw [List.getElem?_cons_zero, Option.some.injEq, Prod.mk.injEq] at hj
            exact absurd hj.1 hcL
        | i + 1, j + 1 =>
            rw [List.getElem?_cons_succ] at hi hj
            have hcache : ((getWorkerStep c s).2).cache L = none := by
              rcases hc : s.cache c with _ | pid
              · rw [getWorkerStep_of_uncached c s hc]
                have hLc : ¬(L = c) := fun hx => hcL hx.symm
                simpa [hLc] using h
              · rw [getWorkerStep_of_cached c s pid hc]
                exact h
            exact runCalls_agree rest (getWorkerStep c s).2 L hcache i j n m hi hj

theorem runCalls_count :
    ∀ (cs : List String) (s : PoolState) (L : String),
      ((runCalls cs s).2).constructions.count L =
        s.constructions.count L + (if L ∈ cs ∧ s.cache L = none then 1 else 0)
  | [], s, L => by simp [runCalls]
  | c :: rest, s, L => by
      rw [runCalls]
      rcases hc : s.cache c with _ | pid
      · rw [getWorkerStep_of_uncached c s hc] at *
        rw [runCalls_count rest _ L]
        simp only [List.count_append]
        by_cases hLc : L = c
        · subst hLc
          simp [hc, List.count_singleton]
        · have hmem : (L ∈ c :: rest) = (L ∈ rest) := by
            simp [List.mem_cons, hLc]
          simp [hLc, hmem]
      · rw [getWorkerStep_of_cached c s pid hc]
        rw [runCalls_count rest s L]
        by_cases hLc : L = c
        · subst hLc
          simp [hc]
        · have hmem : (L ∈ c :: rest) = (L ∈ rest) := by
            simp [List.mem_cons, hLc]
          simp [hmem]

theorem runCalls_cache_mem :
    ∀ (cs : List String) (s : PoolState) (L : String),
      ((runCalls cs s).2).cache L ≠ none ↔ (L ∈ cs ∨ s.cache L ≠ none)
  | [], s, L => by simp [runCalls]
  | c :: rest, s, L => by
      rw [runCalls]
      rcases hc : s.cache c with _ | pid
      · rw [getWorkerStep_of_uncached c s hc]
        rw [runCalls_cache_mem rest _ L]
        by_cases hLc : L = c
        · subst hLc
          simp [List.mem_cons]
        · simp [hLc, List.mem_cons]
      · rw [getWorkerStep_of_cached c s pid hc]
        rw [runCalls_cache_mem rest s L]
        by_cases hLc : L = c
        · subst hLc
          simp [hc, List.mem_cons]
        · simp [hLc, List.mem_cons]

theorem getWorkerStep_wf (c : String) (s : PoolState) (h : PoolWF s) :
    PoolWF (getWorkerStep c s).2 := by
  rcases hc : s.cache c with _ | pid
  · rw [getWorkerStep_of_uncached c s hc]
    dsimp only
    constructor
    · intro L n hL
      dsimp only at hL ⊢
      by_cases hLc : L = c
      · simp only [hLc, if_true, Option.some.injEq] at hL
        omega
      · simp only [hLc, if_false] at hL
        have := h.1 L n hL
        omega
    · intro L L' n hL hL'
      dsimp only at hL hL'
      by_cases hLc : L = c <;> by_cases hLc' : L' = c
      · rw [hLc, hLc']
      · simp only [hLc', if_false] at hL'
        simp only [hLc, if_true, Option.some.injEq] at hL
        have := h.1 L' n hL'
        omega
      · simp only [hLc, if_false] at hL
        simp only [hLc', if_true, Option.some.injEq] at hL'
        have := h.1 L n hL
        omega
      · simp only [hLc, if_false] at hL
        simp only [hLc', if_false] at hL'
        exact h.2 L L' n hL hL'
  · rw [getWorkerStep_of_cached c s pid hc]
    exact h

theorem runCalls_wf :
    ∀ (cs : List String) (s : PoolState), PoolWF s → PoolWF (runCalls cs s).2
  | [], _, h => h
  | c :: rest, s, h =>
      runCalls_wf rest (getWorkerStep c s).2 (getWorkerStep_wf c s h)

theorem runCalls_result_cached :
    ∀ (cs : List String) (s : PoolState) (i : Nat) (L : String) (n : Nat),
      ((runCalls cs s).1)[i]? = some (L, n) → ((runCalls cs s).2).cache L = some n
  | [], s, i, L, n, hi => by simp [runCalls] at hi
  | c :: rest, s, i, L, n, hi => by
      rw [runCalls] at hi ⊢
      match i with
      | 0 =>
          rw [List.getElem?_cons_zero, Option.some.injEq, Prod.mk.injEq] at hi
          obtain ⟨hcL, hid⟩ := hi
          subst hcL
          rcases hc : s.cache c with _ | pid
          · rw [getWorkerStep_of_uncached c s hc] at hid ⊢
            dsimp only at hid
            apply runCalls_cache_stable
            simp [← hid]
          · rw [getWorkerStep_of_cached c s pid hc] at hid ⊢
            dsimp only at hid
            apply runCalls_cache_stable
            rw [hc, hid]
      | i + 1 =>
          rw [List.getElem?_cons_succ] at hi
          exact runCalls_result_cached rest (getWorkerStep c s).2 i L n hi

theorem initPool_wf : PoolWF initPool := by
  constructor
  · intro L n h
    exact absurd h (by simp [initPool])
  · intro L L' n h
    exact absurd h (by simp [initPool])

theorem buildSearchablePdf_pages_length (texts : List String) (lang : String)
    (h : texts ≠ []) : (buildSearchablePdf texts lang).pages.length = texts.length := by
  simp [buildSearchablePdf, h]

theorem convert_pdf_path {β ε : Type} (rasterize : β → String → List β)
    (recognize : β → Except ε String) (B : Nat) (p : ConvertParams β)
    (pages : List β) (hpdf : isPdfInput p = true)
    (hrast : rasterize p.bytes (resolveLang p.lang) = pages)
    (hne : pages.length ≠ 0) :
    convertToSearchablePdf rasterize recognize B p =
      Except.ok ⟨combinedTextOf (runBatches recognize B pages),
        buildSearchablePdf (runBatches recognize B pages) (resolveLang p.lang)⟩ := by
  unfold convertToSearchablePdf
  simp [hpdf, hrast, hne]

theorem convert_pdf_empty {β ε : Type} (rasterize : β → String → List β)
    (recognize : β → Except ε String) (B : Nat) (p : ConvertParams β)
    (t : String) (hpdf : isPdfInput p = true)
    (hrast : rasterize p.bytes (resolveLang p.lang) = [])
    (hrec : recognize p.bytes = Except.ok t) :
    convertToSearchablePdf rasterize recognize B p =
      Except.ok ⟨t, buildSearchablePdf [t] (resolveLang p.lang)⟩ := by
  unfold convertToSearchablePdf
  simp [hpdf, hrast, hrec]

theorem convert_image_path {β ε : Type} (rasterize : β → String → List β)
    (recognize : β → Except ε String) (B : Nat) (p : ConvertParams β)
    (t : String) (hpdf : isPdfInput p = false)
    (hrec : recognize p.bytes = Except.ok t) :
    convertToSearchablePdf rasterize recognize B p =
      Except.ok ⟨t, buildSearchablePdf [t] (resolveLang p.lang)⟩ := by
  unfold convertToSearchablePdf
  simp [hpdf, hrec]

/-! ## Claim theorems -/

/-- C1: for every ordered sequence of page images recognized under a language
tag, the batch scheduler returns a sequence of page texts of the same length
in which the text at index `i` is the recognition result of the page image at
index `i`, regardless of the order in which the concurrent recognition calls
inside a batch complete: under every valid completion schedule the scheduled
run equals the (positional) `Promise.all` run, has the input's length, and
carries page `i`'s recognition result at slot `i`. -/
theorem c1_scheduler_order_independent {α ε : Type} [Inhabited α]
    (recognize : α → Except ε String) (B : Nat) (sched : List (List Nat))
    (pages : List α) (hB : 0 < B) (hv : ValidSched B sched pages) :
    runBatchesScheduled recognize B sched pages =
      (runBatches recognize B pages).map some ∧
    (runBatchesScheduled recognize B sched pages).length = pages.length ∧
    ∀ (i : Nat) (hi : i < pages.length),
      (runBatchesScheduled recognize B sched pages)[i]? =
        some (some (ocrImageSafe recognize pages[i])) := by
  have h := runBatchesScheduled_eq recognize B hB sched pages hv
  refine ⟨?_, ?_, ?_⟩
  · rw [h, runBatches_eq_map recognize B pages hB, List.map_map]
    rfl
  · rw [h, List.length_map]
  · intro i hi
    rw [h, List.getElem?_map, List.getElem?_eq_getElem hi]
    rfl

/-- Witness for C1: three pages, batch size 2, with the schedule completing
slot 1 before slot 0 inside the first batch. -/
theorem c1_scheduler_order_independent_w :
    runBatchesScheduled (fun s => (Except.ok (s ++ "!") : Except Unit String)) 2
        [[1, 0], [0]] ["a", "b", "c"] = [some "a!", some "b!", some "c!"] ∧
    (runBatchesScheduled (fun s => (Except.ok (s ++ "!") : Except Unit String)) 2
        [[1, 0], [0]] ["a", "b", "c"]).length = 3 := by
  have h := c1_scheduler_order_independent
    (fun s => (Except.ok (s ++ "!") : Except Unit String)) 2 [[1, 0], [0]]
    ["a", "b", "c"] (by decide) ⟨by decide, by decide, trivial⟩
  exact ⟨h.1.trans (by decide), h.2.1⟩

/-- C2: for every N-page PDF in which recognition of exactly one page `k`
throws, the conversion still succeeds with N page texts — N−1 real
recognition results plus the sentinel `"[OCR failed for this page]"` at
position `k` — the combined text joins the per-page results with `Page i`
headers in page order, and the output document has exactly N pages. -/
theorem c2_page_failure_isolated {β ε : Type} (recognize : β → Except ε String)
    (B k : Nat) (pages : List β) (rasterize : β → String → List β)
    (p : ConvertParams β) (hB : 0 < B) (hk : k < pages.length)
    (hpdf : isPdfInput p = true)
    (hrast : rasterize p.bytes (resolveLang p.lang) = pages)
    (hfail : ∀ pk : β, pages[k]? = some pk → ∃ e, recognize pk = Except.error e)
    (_hok : ∀ (i : Nat) (pi : β), i ≠ k → pages[i]? = some pi →
      ∃ t, recognize pi = Except.ok t) :
    convertToSearchablePdf rasterize recognize B p =
      Except.ok ⟨combinedTextOf (runBatches recognize B pages),
        buildSearchablePdf (runBatches recognize B pages) (resolveLang p.lang)⟩ ∧
    (runBatches recognize B pages).length = pages.length ∧
    (runBatches recognize B pages)[k]? = some "[OCR failed for this page]" ∧
    (∀ (i : Nat) (pi : β) (t : String), i ≠ k → pages[i]? = some pi →
      recognize pi = Except.ok t →
      (runBatches recognize B pages)[i]? = some t) ∧
    (buildSearchablePdf (runBatches recognize B pages) (resolveLang p.lang)).pages.length
      = pages.length := by
  have hmap := runBatches_eq_map recognize B pages hB
  have hne : pages.length ≠ 0 := by omega
  have hlen : (runBatches recognize B pages).length = pages.length := by
    rw [hmap, List.length_map]
  refine ⟨convert_pdf_path rasterize recognize B p pages hpdf hrast hne, hlen, ?_, ?_, ?_⟩
  · obtain ⟨e, he⟩ := hfail pages[k] (List.getElem?_eq_getElem hk)
    rw [hmap, List.getElem?_map, List.getElem?_eq_getElem hk]
    simp [ocrImageSafe, he]
  · intro i pi t _ hp hrec
    rw [hmap, List.getElem?_map, hp]
    simp [ocrImageSafe, hrec]
  · have hne2 : runBatches recognize B pages ≠ [] := by
      intro hnil
      rw [hnil] at hlen
      exact hne hlen.symm
    rw [buildSearchablePdf_pages_length _ _ hne2, hlen]

/-- Witness for C2: the 3-page scenario of the specification — page 2 (index
1) throws; the combined text carries `Page i` headers with the sentinel in
the middle, and the output document has 3 pages. -/
theorem c2_page_failure_isolated_w :
    convertToSearchablePdf (fun (_ : Nat) _ => [0, 1, 2])
        (fun n => if n = 1 then Except.error () else Except.ok ("t" ++ toString n)) 2
        ⟨5, "doc.pdf", some "application/pdf", some "eng"⟩ =
      Except.ok ⟨"Page 1\nt0\n\nPage 2\n[OCR failed for this page]\n\nPage 3\nt2",
        buildSearchablePdf ["t0", "[OCR failed for this page]", "t2"] "eng"⟩ ∧
    (runBatches (fun n => if n = 1 then Except.error () else Except.ok ("t" ++ toString n))
        2 [0, 1, 2])[1]? = some "[OCR failed for this page]" ∧
    (buildSearchablePdf ["t0", "[OCR failed for this page]", "t2"] "eng").pages.length
      = 3 := by
  have h := c2_page_failure_isolated
    (fun n => if n = 1 then Except.error () else Except.ok ("t" ++ toString n)) 2 1
    [0, 1, 2] (fun _ _ => [0, 1, 2]) ⟨5, "doc.pdf", some "application/pdf", some "eng"⟩
    (by decide) (by decide) (by decide) rfl
    (by
      intro pk hp
      rw [show ([0, 1, 2] : List Nat)[1]? = some 1 from rfl, Option.some.injEq] at hp
      subst hp
      exact ⟨(), by decide⟩)
    (by
      intro i pi hne hp
      match i with
      | 0 =>
          rw [show ([0, 1, 2] : List Nat)[0]? = some 0 from rfl, Option.some.injEq] at hp
          subst hp
          exact ⟨"t0", by decide⟩
      | 1 => exact absurd rfl hne
      | 2 =>
          rw [show ([0, 1, 2] : List Nat)[2]? = some 2 from rfl, Option.some.injEq] at hp
          subst hp
          exact ⟨"t2", by decide⟩
      | n + 3 =>
          rw [show ([0, 1, 2] : List Nat)[n + 3]? = none from by simp] at hp
          cases hp)
  exact ⟨h.1, h.2.2.1, h.2.2.2.2⟩

/-- C3: for every language tag, among any number of interleaved `getWorker`
calls exactly one engine construction is performed for that tag (and none if
it is never requested); every caller for the tag receives the same promise
identifier, hence observes the same settlement — in particular a
construction failure is reported to every waiter; a different tag never
shares that promise, and a tag has a cache entry exactly when it was
requested, so one tag's failing construction does not affect the entries of
other tags. -/
theorem c3_worker_single_flight (calls : List String) (L : String) :
    ((runCalls calls initPool).2).constructions.count L =
      (if L ∈ calls then 1 else 0) ∧
    (∀ (i j n m : Nat), ((runCalls calls initPool).1)[i]? = some (L, n) →
      ((runCalls calls initPool).1)[j]? = some (L, m) → n = m) ∧
    (∀ (L' : String) (i j n m : Nat), L ≠ L' →
      ((runCalls calls initPool).1)[i]? = some (L, n) →
      ((runCalls calls initPool).1)[j]? = some (L', m) → n ≠ m) ∧
    (∀ L' : String, ((runCalls calls initPool).2).cache L' ≠ none ↔ L' ∈ calls) := by
  refine ⟨?_, ?_, ?_, ?_⟩
  · rw [runCalls_count calls initPool L]
    simp [initPool]
  · intro i j n m hi hj
    exact runCalls_agree calls initPool L (by simp [initPool]) i j n m hi hj
  · intro L' i j n m hLL hi hj heq
    have hwf := runCalls_wf calls initPool initPool_wf
    have hL := runCalls_result_cached calls initPool i L n hi
    have hL' := runCalls_result_cached calls initPool j L' m hj
    rw [heq] at hL
    exact hLL (hwf.2 L L' m hL hL')
  · intro L'
    rw [runCalls_cache_mem calls initPool L']
    simp [initPool]

/-- Witness for C3: tags `"eng"` and `"amh"` requested repeatedly and
interleaved — one construction each, all `"eng"` callers share identifier 0,
which differs from the `"amh"` identifier 1. -/
theorem c3_worker_single_flight_w :
    ((runCalls ["eng", "amh", "eng", "amh", "eng"] initPool).2).constructions.count "eng" = 1 ∧
    (0 : Nat) = 0 ∧ (0 : Nat) ≠ 1 := by
  have h := c3_worker_single_flight ["eng", "amh", "eng", "amh", "eng"] "eng"
  refine ⟨h.1.trans (by decide), h.2.1 0 2 0 0 (by decide) (by decide), ?_⟩
  exact h.2.2.1 "amh" 0 1 0 1 (by decide) (by decide) (by decide)

/-- C4 (code defect): the font cache stores resolved bytes, not the in-flight
promise, and the network path suspends between the cache check and the cache
store (`await fetch`, line 464).  Two `loadFontData()` calls that both start
while the cache is empty and no local font file exists therefore both miss
the cache and both start a fetch — two fetches, where the claim requires one
creation in total.  The local-filesystem path, which has no suspension point,
does collapse (one read, second caller served from the cache), and once the
cache is filled every later call returns the cached bytes unchanged. -/
theorem c4_font_cache_race :
    ((fontBegin none (fontBegin none ⟨none, 0, 0⟩).2).2).fetches = 2 ∧
    ((fontBegin none (fontBegin none ⟨none, 0, 0⟩).2).2).reads = 0 ∧
    ((fontBegin (some 5) (fontBegin (some 5) ⟨none, 0, 0⟩).2).2).reads = 1 ∧
    (fontBegin (some 5) (fontBegin (some 5) ⟨none, 0, 0⟩).2).1 = some 5 ∧
    fontBegin none ⟨some 9, 3, 4⟩ = (some 9, ⟨some 9, 3, 4⟩) ∧
    (fontFinish 7 (fontBegin none ⟨none, 0, 0⟩).2).2.cache = some 7 := by
  decide

/-- C5 (corrected): if rendering or parsing the whole document fails,
rasterization returns an empty sequence instead of propagating the error, and
the orchestrator then treats the original bytes as a single raster image: one
direct recognition call on the raw input, whose (trimmed) result — possibly
empty — becomes the returned text, and a one-page document is assembled.  (The
original claim's "still returns non-empty text" fails: see
`c5_rasterization_fallback_cex`.) -/
theorem c5_rasterization_fallback :
    (∀ (ε : Type) (e : ε) (lng : Option String) (T : ℚ) (ben : Bool),
      rasterizePdfPages (Except.error e) lng T ben = []) ∧
    (∀ (β ε : Type) (rasterize : β → String → List β)
      (recognize : β → Except ε String) (B : Nat) (p : ConvertParams β)
      (t : String), isPdfInput p = true →
      rasterize p.bytes (resolveLang p.lang) = [] →
      recognize p.bytes = Except.ok t →
      convertToSearchablePdf rasterize recognize B p =
        Except.ok ⟨t, buildSearchablePdf [t] (resolveLang p.lang)⟩ ∧
      (buildSearchablePdf [t] (resolveLang p.lang)).pages.length = 1) := by
  refine ⟨fun ε e lng T ben => rfl, ?_⟩
  intro β ε rasterize recognize B p t hpdf hrast hrec
  refine ⟨convert_pdf_empty rasterize recognize B p t hpdf hrast hrec, ?_⟩
  exact buildSearchablePdf_pages_length [t] _ (by simp)

/-- Counterexample for C5 as stated: with rasterization failing and direct
recognition of the raw bytes returning the empty string, the pipeline
returns empty text — it does not "still return non-empty text". -/
theorem c5_rasterization_fallback_cex :
    convertToSearchablePdf
        (fun (_ : PageImage) _ => rasterizePdfPages (Except.error ()) (some "eng") 180 false)
        (fun _ => (Except.ok "" : Except Unit String)) 3
        ⟨⟨1, 1, [0, 0, 0, 0]⟩, "a.pdf", some "application/pdf", none⟩ =
      Except.ok ⟨"", buildSearchablePdf [""] "eng"⟩ ∧
    ("" : String).isEmpty = true := by
  exact ⟨rfl, rfl⟩

/-- Witness for C5: rasterization failure model feeding the orchestrator,
with direct recognition returning `"x"`. -/
theorem c5_rasterization_fallback_w :
    rasterizePdfPages (Except.error ()) (some "eng") 180 false = [] ∧
    convertToSearchablePdf
        (fun (_ : PageImage) _ => rasterizePdfPages (Except.error ()) (some "eng") 180 false)
        (fun _ => (Except.ok "x" : Except Unit String)) 3
        ⟨⟨1, 1, [0, 0, 0, 0]⟩, "a.pdf", some "application/pdf", none⟩ =
      Except.ok ⟨"x", buildSearchablePdf ["x"] "eng"⟩ ∧
    (buildSearchablePdf ["x"] "eng").pages.length = 1 := by
  have h1 := c5_rasterization_fallback.1 Unit () (some "eng") 180 false
  have h2 := c5_rasterization_fallback.2 PageImage Unit
    (fun _ _ => rasterizePdfPages (Except.error ()) (some "eng") 180 false)
    (fun _ => Except.ok "x") 3 ⟨⟨1, 1, [0, 0, 0, 0]⟩, "a.pdf", some "application/pdf", none⟩ "x"
    rfl h1 rfl
  exact ⟨h1, h2.1, h2.2⟩

/-- C6 (corrected): for a single (non-PDF) raster image converted with tag
`"amh"`, the image path applies no preprocessing at all — recognition runs
directly on the original bytes (binarization, unconditional for `"amh"`
regardless of the global toggle, happens only while rasterizing PDF pages) —
and the output document has exactly one page with complex-script font sizing
(size 16, line height 22).  (The original claim's "binarization is applied
before recognition" fails on the image path: see `c6_image_path_cex`.) -/
theorem c6_image_path_no_binarize :
    (∀ (β ε : Type) (rasterize : β → String → List β)
      (recognize : β → Except ε String) (B : Nat) (p : ConvertParams β)
      (t : String), isPdfInput p = false → p.lang = some "amh" →
      recognize p.bytes = Except.ok t →
      convertToSearchablePdf rasterize recognize B p =
        Except.ok ⟨t, buildSearchablePdf [t] "amh"⟩ ∧
      (buildSearchablePdf [t] "amh").pages.length = 1 ∧
      (buildSearchablePdf [t] "amh").fontSize = 16 ∧
      (buildSearchablePdf [t] "amh").lineHeight = 22) ∧
    (∀ (ε : Type) (imgs : List PageImage) (T : ℚ) (ben : Bool),
      rasterizePdfPages (ε := ε) (Except.ok imgs) (some "amh") T ben =
        imgs.map (binarizeImage T)) := by
  constructor
  · intro β ε rasterize recognize B p t hpdf hlang hrec
    have hres : resolveLang p.lang = "amh" := by rw [hlang]; rfl
    have hconv := convert_image_path rasterize recognize B p t hpdf hrec
    rw [hres] at hconv
    refine ⟨hconv, buildSearchablePdf_pages_length [t] "amh" (by simp), ?_, ?_⟩
    · have hamh : langHasAmh "amh" = true := by decide
      simp [buildSearchablePdf, hamh]
    · have hamh : langHasAmh "amh" = true := by decide
      simp [buildSearchablePdf, hamh]
  · intro ε imgs T ben
    have hamh : langHasAmh "amh" = true := by decide
    simp [rasterizePdfPages, hamh, AMHARIC_BINARIZE_ENABLED]

/-- Counterexample for C6 as stated: on the image path with tag `"amh"`, the
recognizer receives the original bytes — a recognizer that distinguishes the
original image from any other input reports `"raw"` — even though
binarization at the default threshold would have altered this image, so
binarization was not applied before recognition. -/
theorem c6_image_path_cex :
    convertToSearchablePdf (fun (_ : PageImage) _ => ([] : List PageImage))
        (fun img => (Except.ok (if img = ⟨1, 1, [200, 200, 200, 7]⟩ then "raw" else "bin")
          : Except Unit String)) 3
        ⟨⟨1, 1, [200, 200, 200, 7]⟩, "scan.jpg", some "image/jpeg", some "amh"⟩ =
      Except.ok ⟨"raw", buildSearchablePdf ["raw"] "amh"⟩ ∧
    binarizeImage (BINARIZE_THRESHOLD_of none) ⟨1, 1, [200, 200, 200, 7]⟩ ≠
      ⟨1, 1, [200, 200, 200, 7]⟩ := by
  exact ⟨rfl, by decide⟩

/-- Witness for C6: a concrete image-path conversion with tag `"amh"` and a
concrete Amharic PDF rasterization where the toggle is off yet every page is
binarized. -/
theorem c6_image_path_no_binarize_w :
    convertToSearchablePdf (fun (_ : Nat) _ => ([] : List Nat))
        (fun _ => (Except.ok "hello" : Except Unit String)) 3
        ⟨5, "scan.jpg", some "image/jpeg", some "amh"⟩ =
      Except.ok ⟨"hello", buildSearchablePdf ["hello"] "amh"⟩ ∧
    (buildSearchablePdf ["hello"] "amh").fontSize = 16 ∧
    (buildSearchablePdf ["hello"] "amh").lineHeight = 22 ∧
    rasterizePdfPages (ε := Unit) (Except.ok [⟨1, 1, [200, 200, 200, 7]⟩])
        (some "amh") 180 false = [⟨1, 1, [255, 255, 255, 7]⟩] := by
  have h := c6_image_path_no_binarize.1 Nat Unit (fun _ _ => [])
    (fun _ => Except.ok "hello") 3 ⟨5, "scan.jpg", some "image/jpeg", some "amh"⟩
    "hello" (by decide) rfl rfl
  have h2 := c6_image_path_no_binarize.2 Unit [⟨1, 1, [200, 200, 200, 7]⟩] 180 false
  exact ⟨h.1, h.2.2.1, h.2.2.2, h2.trans (by decide)⟩

/-- C7 (code defect): the cleaning step of the document assembler is claimed
(and commented in the source, line 502) to keep U+FFFD for complex-script
profiles and drop it otherwise; the code does the opposite of both halves —
`replace(/�/g, isAmharic ? "" : " ")` deletes it for Amharic and turns
it into a space (not a deletion) otherwise.  Control characters do become
spaces, intra-paragraph whitespace is collapsed and paragraph breaks are
preserved. -/
theorem c7_replacement_char :
    cleanedText true "a�b" = "ab" ∧
    cleanedText false "a�b" = "a b" ∧
    cleanedText false "x\u0001y" = "x y" ∧
    pageRenderText false "a  b\n\n\nc" = "a b\n\nc" := by
  refine ⟨by decide, by decide, by decide, by decide⟩

/-- C8 (corrected): the OCR batch size defaults to 3; a non-positive (or
non-numeric) configured value falls back to the default 3 — it is not clamped
to 1 — while positive configured values are clamped to [1, 5], so 10 yields
5.  (The original claim's "0 is clamped to 1" fails: see
`c8_batch_clamp_cex`.) -/
theorem c8_batch_clamp :
    OCR_BATCH_SIZE_of none = 3 ∧
    OCR_BATCH_SIZE_of (some 0) = 3 ∧
    OCR_BATCH_SIZE_of (some 10) = 5 ∧
    ∀ q : ℚ, 0 < q → 1 ≤ OCR_BATCH_SIZE_of (some q) ∧ OCR_BATCH_SIZE_of (some q) ≤ 5 := by
  refine ⟨rfl, by norm_num [OCR_BATCH_SIZE_of], by norm_num [OCR_BATCH_SIZE_of], ?_⟩
  intro q hq
  simp only [OCR_BATCH_SIZE_of, if_neg (not_le.mpr hq)]
  exact ⟨le_min (le_max_right q 1) (by norm_num), min_le_right _ _⟩

/-- Counterexample for C8 as stated: a configured batch size of 0 yields the
default 3, not the claimed clamp result 1. -/
theorem c8_batch_clamp_cex :
    OCR_BATCH_SIZE_of (some 0) = 3 ∧ (3 : ℚ) ≠ 1 := by
  norm_num [OCR_BATCH_SIZE_of]

/-- Witness for C8: the clamp bounds at the configured value 2. -/
theorem c8_batch_clamp_w :
    (0 : ℚ) < 2 ∧ 1 ≤ OCR_BATCH_SIZE_of (some 2) ∧ OCR_BATCH_SIZE_of (some 2) ≤ 5 := by
  have h := c8_batch_clamp.2.2.2 2 (by norm_num)
  exact ⟨by norm_num, h.1, h.2⟩

/-- C9: binarization at threshold `T` sets all three colour channels of every
pixel to 255 exactly when the luminance `0.299R + 0.587G + 0.114B` is `≥ T`
and to 0 otherwise, identically across the three channels; the threshold
defaults to 180 and every configured value is clamped to [0, 255]. -/
theorem c9_binarization :
    (∀ (T : ℚ) (img : PageImage) (p r g b : Nat), 4 * p + 3 < img.data.length →
      img.data[4 * p]? = some r → img.data[4 * p + 1]? = some g →
      img.data[4 * p + 2]? = some b →
      (binarizeImage T img).data[4 * p]? =
        some (if 0.299 * (r : ℚ) + 0.587 * (g : ℚ) + 0.114 * (b : ℚ) ≥ T then 255 else 0) ∧
      (binarizeImage T img).data[4 * p + 1]? =
        some (if 0.299 * (r : ℚ) + 0.587 * (g : ℚ) + 0.114 * (b : ℚ) ≥ T then 255 else 0) ∧
      (binarizeImage T img).data[4 * p + 2]? =
        some (if 0.299 * (r : ℚ) + 0.587 * (g : ℚ) + 0.114 * (b : ℚ) ≥ T then 255 else 0)) ∧
    BINARIZE_THRESHOLD_of none = 180 ∧
    (∀ q : ℚ, 0 ≤ BINARIZE_THRESHOLD_of (some q) ∧ BINARIZE_THRESHOLD_of (some q) ≤ 255) := by
  refine ⟨?_, rfl, ?_⟩
  · intro T img p r g b hlen h0 h1 h2
    rw [← luminance_eq]
    exact binarizeData_pixel T img.data p r g b hlen h0 h1 h2
  · intro q
    unfold BINARIZE_THRESHOLD_of
    exact ⟨le_min (le_max_right q 0) (by norm_num), min_le_right _ _⟩

/-- Witness for C9: a dark pixel (luminance 124.2 < 180) goes to pure black
on all three channels. -/
theorem c9_binarization_w :
    (binarizeImage 180 ⟨1, 1, [200, 100, 50, 9]⟩).data[0]? = some 0 ∧
    (binarizeImage 180 ⟨1, 1, [200, 100, 50, 9]⟩).data[1]? = some 0 ∧
    (binarizeImage 180 ⟨1, 1, [200, 100, 50, 9]⟩).data[2]? = some 0 := by
  have h := c9_binarization.1 180 ⟨1, 1, [200, 100, 50, 9]⟩ 0 200 100 50
    (by decide) (by decide) (by decide) (by decide)
  have hval : (if 0.299 * ((200 : Nat) : ℚ) + 0.587 * ((100 : Nat) : ℚ) +
      0.114 * ((50 : Nat) : ℚ) ≥ (180 : ℚ) then (255 : Nat) else 0) = 0 := by
    norm_num
  rw [hval] at h
  exact h

/-- C10: binarization mutates only the R, G and B bytes of each pixel — the
alpha byte of every pixel, the pixel-buffer length, and the width and height
of the page image are unchanged, for every well-formed input image and every
threshold. -/
theorem c10_binarize_frame : ∀ (T : ℚ) (img : PageImage),
    img.data.length = 4 * img.width * img.height →
    (binarizeImage T img).width = img.width ∧
    (binarizeImage T img).height = img.height ∧
    (binarizeImage T img).data.length = img.data.length ∧
    ∀ p : Nat, (binarizeImage T img).data[4 * p + 3]? = img.data[4 * p + 3]? := by
  intro T img _
  exact ⟨rfl, rfl, binarizeData_length T img.data, fun p => binarizeData_alpha T img.data p⟩

/-- Witness for C10: a concrete 1×1 image keeps its dimensions and its alpha
byte. -/
theorem c10_binarize_frame_w :
    (binarizeImage 180 ⟨1, 1, [10, 20, 30, 40]⟩).width = 1 ∧
    (binarizeImage 180 ⟨1, 1, [10, 20, 30, 40]⟩).data.length = 4 ∧
    (binarizeImage 180 ⟨1, 1, [10, 20, 30, 40]⟩).data[3]? = some 40 := by
  have h := c10_binarize_frame 180 ⟨1, 1, [10, 20, 30, 40]⟩ (by decide)
  exact ⟨h.1, h.2.2.1, (h.2.2.2 0).trans (by decide)⟩

end Cookpdf
